import Mathlib

/-!
Shallow embedding of `rasa_core/utils.py` (USEReady/rasa_core).

Python objects with reference semantics (numpy arrays passed to
`HashableNDArray`, the list argument of `subsample_array`) are modelled with an
explicit store: a heap of arrays addressed by `NDRef`.  Pure helpers
(`extract_args`, `one_hot`, `create_dir_for_file`) are modelled as plain
functions; fallible code returns `Except`/`Option`.
-/

/-- A heap of arrays with element type `α`; addresses index into the list. -/
abbrev Store (α : Type) : Type := List (List α)

/-- A reference to an array living in a `Store` (models a Python object
reference to a list / ndarray). -/
structure NDRef where
  addr : Nat
deriving DecidableEq

/-- Dereference: the contents of the array `r` points to (empty list when the
address is dangling, which the theorems rule out by hypothesis). -/
def readArr {α : Type} (σ : Store α) (r : NDRef) : List α :=
  σ.getD r.addr []

/-- In-place mutation of the array `r` points to. -/
def writeArr {α : Type} (σ : Store α) (r : NDRef) (v : List α) : Store α :=
  σ.set r.addr v

/-- Allocate a fresh array holding `v`; models `array(wrapped)` / `arr[:]`,
which create a new object. -/
def allocArr {α : Type} (σ : Store α) (v : List α) : Store α × NDRef :=
  (σ ++ [v], ⟨σ.length⟩)

/-- `Store.length`, used to state address validity. -/
def storeSize {α : Type} (σ : Store α) : Nat := List.length σ

/-! ### HashableNDArray (utils.py lines 235-278) -/

/-- Embedding of the `HashableNDArray` object state: the `tight` flag, the
reference held in `self.__wrapped`, and the cached `self.__hash`.  The SHA-1
of the byte view is abstracted as a function `sha1 : List Int → Nat` passed to
the constructor; every theorem quantifies over it. -/
structure HashableNDArray where
  tight : Bool
  wrapped : NDRef
  hashVal : Nat
deriving DecidableEq

/-- `HashableNDArray.__init__(self, wrapped, tight=False)`:
`self.__wrapped = array(wrapped) if tight else wrapped` (a fresh copy when
tight, an alias otherwise) and
`self.__hash = int(sha1(wrapped.view()).hexdigest(), 16)` (computed from the
contents of `wrapped` at construction time).  Returns the updated store and
the constructed object. -/
def HashableNDArray.init (sha1 : List Int → Nat) (σ : Store Int) (wrapped : NDRef)
    (tight : Bool) : Store Int × HashableNDArray :=
  if tight then
    let alloc := allocArr σ (readArr σ wrapped)
    (alloc.1, ⟨tight, alloc.2, sha1 (readArr σ wrapped)⟩)
  else
    (σ, ⟨tight, wrapped, sha1 (readArr σ wrapped)⟩)

/-- `__eq__`: `all(self.__wrapped == other.__wrapped)` — full-content
comparison of the two wrapped arrays, read in the current store. -/
def HashableNDArray.eqMethod (σ : Store Int) (a b : HashableNDArray) : Bool :=
  readArr σ a.wrapped == readArr σ b.wrapped

/-- `__hash__`: `return self.__hash` — the cached value; the current store is
a parameter (the method could read the array) but is never consulted. -/
def HashableNDArray.hashMethod (_σ : Store Int) (a : HashableNDArray) : Nat :=
  a.hashVal

/-- `unwrap`: returns a fresh copy of the encapsulated array when tight,
otherwise the encapsulated array itself. -/
def HashableNDArray.unwrap (σ : Store Int) (a : HashableNDArray) :
    Store Int × NDRef :=
  if a.tight then allocArr σ (readArr σ a.wrapped) else (σ, a.wrapped)

/-! ### one_hot (utils.py lines 161-168) -/

/-- The two failure modes of `one_hot`: the explicit `Exception` raised by the
guard, and the `IndexError` numpy raises on an out-of-bounds assignment. -/
inductive OneHotError where
  | outOfRange (hotIdx : Int) (length : Nat)
  | indexError
deriving DecidableEq

/-- numpy item assignment `r[i] = v` for a 1-D array: a nonnegative index must
be `< len(r)`; a negative index `i` addresses `len(r) + i` and must stay
nonnegative; otherwise an `IndexError` is raised. -/
def npSetItem (r : List Nat) (i : Int) (v : Nat) : Except OneHotError (List Nat) :=
  if 0 ≤ i then
    if i < (r.length : Int) then Except.ok (r.set i.toNat v)
    else Except.error OneHotError.indexError
  else
    if 0 ≤ i + (r.length : Int) then Except.ok (r.set (i + (r.length : Int)).toNat v)
    else Except.error OneHotError.indexError

/-- `one_hot(hot_idx, length, dtype=None)`: raises when `hot_idx >= length`,
else builds `numpy.zeros(length)` and assigns `r[hot_idx] = 1`.  The `dtype`
argument only selects the element type and is dropped. -/
def one_hot (hot_idx : Int) (length : Nat) : Except OneHotError (List Nat) :=
  if (length : Int) ≤ hot_idx then
    Except.error (OneHotError.outOfRange hot_idx length)
  else
    npSetItem (List.replicate length 0) hot_idx 1

/-! ### extract_args (utils.py lines 434-450) -/

/-- The loop body of `extract_args`: walk the items of `kwargs`, appending
each pair to `extracted` when its key is in `keys_to_extract` and to
`remaining` otherwise. -/
def extractArgsLoop {K V : Type} [DecidableEq K] (keysToExtract : List K) :
    List (K × V) → List (K × V) → List (K × V) → List (K × V) × List (K × V)
  | [], extracted, remaining => (extracted, remaining)
  | (k, v) :: rest, extracted, remaining =>
    if k ∈ keysToExtract then
      extractArgsLoop keysToExtract rest (extracted ++ [(k, v)]) remaining
    else
      extractArgsLoop keysToExtract rest extracted (remaining ++ [(k, v)])

/-- `extract_args(kwargs, keys_to_extract)`: returns `(extracted, remaining)`.
`kwargs` is a Python dict, modelled as an insertion-ordered association list;
`keys_to_extract` is a set, modelled as a list used only through membership. -/
def extract_args {K V : Type} [DecidableEq K] (kwargs : List (K × V))
    (keysToExtract : List K) : List (K × V) × List (K × V) :=
  extractArgsLoop keysToExtract kwargs [] []

/-! ### subsample_array (utils.py lines 105-116) -/

/-- One step of CPython `random.shuffle`: swap `x[i]` and `x[j]`
(`x[i], x[j] = x[j], x[i]`; both indices are in range whenever the shuffle
calls it). -/
def listSwap {α : Type} (l : List α) (i j : Nat) : List α :=
  if h : i < l.length ∧ j < l.length then
    (l.set i (l.get ⟨j, h.2⟩)).set j (l.get ⟨i, h.1⟩)
  else
    l

/-- The loop of CPython `random.shuffle`: `for i in reversed(range(1, len(x))):
j = randbelow(i + 1); swap x[i], x[j]`.  The random source (`rand` or the
module generator) is abstracted as `g : Nat → Nat`; the draw for step `i` is
`g i % (i + 1)`, which is an arbitrary value below `i + 1`. -/
def shuffleFrom {α : Type} (g : Nat → Nat) : List α → Nat → List α
  | l, 0 => l
  | l, k + 1 => shuffleFrom g (listSwap l (k + 1) (g (k + 1) % (k + 2))) k

/-- `random.shuffle(x)` / `rand.shuffle(x)`: run the swap loop for
`i = len(x) - 1, …, 1`. -/
def pyShuffle {α : Type} (g : Nat → Nat) (l : List α) : List α :=
  shuffleFrom g l (l.length - 1)

/-- Python slicing `arr[:m]` for an `int` bound `m`: a nonnegative bound takes
the first `m` elements (clamped to the length); a negative bound drops the
last `-m` elements. -/
def pySliceTo {α : Type} (l : List α) (m : Int) : List α :=
  if 0 ≤ m then l.take m.toNat else l.take ((l.length : Int) + m).toNat

/-- `subsample_array(arr, max_values, can_modify_incoming_array=True, rand)`:
`arr` is passed by reference (`r` into the store `σ`).  When the caller forbids
modification, `arr = arr[:]` rebinds the local name to a fresh copy; the
shuffle then mutates in place whatever the local name denotes, and
`arr[:max_values]` is returned.  The result is the updated store paired with
the returned list. -/
def subsample_array {α : Type} (σ : Store α) (r : NDRef) (maxValues : Int)
    (canModifyIncomingArray : Bool) (g : Nat → Nat) : Store α × List α :=
  let local_ :=
    if canModifyIncomingArray then (σ, r)
    else allocArr σ (readArr σ r)
  let σ' := writeArr local_.1 local_.2 (pyShuffle g (readArr local_.1 local_.2))
  (σ', pySliceTo (readArr σ' local_.2) maxValues)

/-! ### create_dir_for_file (utils.py lines 149-158) -/

/-- A Python `OSError`: the `errno` attribute plus an opaque payload standing
for the rest of the exception object, so that re-raising "unchanged" is
observable. -/
structure OSErr where
  errno : Int
  payload : String
deriving DecidableEq

/-- `errno.EEXIST`. -/
def EEXIST : Int := 17

/-- `create_dir_for_file(file_path)`: calls `os.makedirs(dirname(file_path))`,
whose outcome is the parameter `makedirsResult` (`none` = success, `some e` =
it raised `e`).  An `OSError` with `errno == errno.EEXIST` is swallowed; any
other `OSError` is re-raised unchanged. -/
def create_dir_for_file (makedirsResult : Option OSErr) : Except OSErr Unit :=
  match makedirsResult with
  | none => Except.ok ()
  | some e =>
    if e.errno ≠ EEXIST then Except.error e else Except.ok ()

/-! ### YAML round trip (utils.py lines 310-372)

`dump_obj_as_yaml_to_string` / `read_yaml_string` delegate the actual
serialization to the third-party `yaml` / `ruamel.yaml` backends, which are
not part of this repository.  The serialization itself is therefore modelled
from the spec. -/

/-- Modelled from the spec: the token stream of a block-style YAML document as
emitted by the dumper backend of `dump_obj_as_yaml_to_string` /
`dump_obj_as_yaml_to_file` (one `key: scalar` line per mapping entry, scalars
kept verbatim with their Unicode content). -/
inductive YamlToken where
  | key (s : String)
  | scalar (s : String)
  | newline
deriving DecidableEq

/-- Modelled from the spec: `dump_obj_as_yaml_to_string(obj)` for a mapping
with string scalars — block (non-flow) style, one entry per line, in key
insertion order. -/
def dump_obj_as_yaml_to_string : List (String × String) → List YamlToken
  | [] => []
  | (k, v) :: rest =>
    YamlToken.key k :: YamlToken.scalar v :: YamlToken.newline ::
      dump_obj_as_yaml_to_string rest

/-- Modelled from the spec: `read_yaml_string(string)` on a block-style
mapping document — safe-mode parsing of one `key: scalar` entry per line into
an insertion-ordered mapping, `none` on a malformed document. -/
def read_yaml_string : List YamlToken → Option (List (String × String))
  | [] => some []
  | YamlToken.key k :: YamlToken.scalar v :: YamlToken.newline :: rest =>
    (read_yaml_string rest).map (fun m => (k, v) :: m)
  | _ => none

/-! ## Helper lemmas -/

open List in
theorem getD_set_self {α : Type} (l : List α) (i : Nat) (a d : α) (h : i < l.length) :
    (l.set i a).getD i d = a := by
  rw [List.getD_eq_getElem _ _ (by simpa using h)]
  exact List.getElem_set_self _

open List in
theorem getD_set_ne {α : Type} (l : List α) (i j : Nat) (a d : α) (h : i ≠ j) :
    (l.set i a).getD j d = l.getD j d := by
  by_cases hj : j < l.length
  · rw [List.getD_eq_getElem _ _ (by simpa using hj), List.getD_eq_getElem _ _ hj]
    exact List.getElem_set_ne h _
  · have h1 : l.length ≤ j := Nat.le_of_not_lt hj
    rw [List.getD_eq_default _ _ (by simpa using h1), List.getD_eq_default _ _ h1]

open List in
theorem getD_replicate_of_lt {α : Type} (n i : Nat) (a d : α) (h : i < n) :
    (List.replicate n a).getD i d = a := by
  rw [List.getD_eq_getElem _ _ (by simpa using h)]
  simp

theorem length_writeArr {α : Type} (σ : Store α) (r : NDRef) (v : List α) :
    (writeArr σ r v).length = σ.length :=
  List.length_set σ r.addr v

theorem readArr_writeArr_self {α : Type} (σ : Store α) (r : NDRef) (v : List α)
    (h : r.addr < σ.length) : readArr (writeArr σ r v) r = v :=
  getD_set_self σ r.addr v [] h

theorem readArr_writeArr_ne {α : Type} (σ : Store α) (r s : NDRef) (v : List α)
    (h : r.addr ≠ s.addr) : readArr (writeArr σ r v) s = readArr σ s :=
  getD_set_ne σ r.addr s.addr v [] h

theorem readArr_append_left {α : Type} (σ τ : Store α) (r : NDRef)
    (h : r.addr < σ.length) : readArr (σ ++ τ) r = readArr σ r :=
  List.getD_append σ τ [] r.addr h

theorem readArr_append_self {α : Type} (σ : Store α) (v : List α) :
    readArr (σ ++ [v]) ⟨σ.length⟩ = v := by
  show (σ ++ [v]).getD σ.length [] = v
  rw [List.getD_append_right σ [v] [] σ.length (Nat.le_refl _)]
  simp [List.getD]

theorem readArr_alloc_new {α : Type} (σ : Store α) (v : List α) :
    readArr (allocArr σ v).1 (allocArr σ v).2 = v :=
  readArr_append_self σ v

/-! ## C9: create_dir_for_file -/

/-- C9: `create_dir_for_file` returns normally when `os.makedirs` succeeds or
fails with errno EEXIST, and re-raises every other `OSError` unchanged. -/
theorem create_dir_for_file_error_handling (e : OSErr) :
    create_dir_for_file none = Except.ok () ∧
    (e.errno = EEXIST → create_dir_for_file (some e) = Except.ok ()) ∧
    (e.errno ≠ EEXIST → create_dir_for_file (some e) = Except.error e) := by
  refine ⟨rfl, ?_, ?_⟩ <;> intro h <;> simp [create_dir_for_file, h]

/-- Witness for C9 at errno 17 (EEXIST, swallowed) and errno 13 (re-raised). -/
theorem create_dir_for_file_error_handling_witness :
    create_dir_for_file (some ⟨17, "dir exists"⟩) = Except.ok () ∧
    create_dir_for_file (some ⟨13, "permission denied"⟩) =
      Except.error ⟨13, "permission denied"⟩ :=
  ⟨(create_dir_for_file_error_handling ⟨17, "dir exists"⟩).2.1 rfl,
   (create_dir_for_file_error_handling ⟨13, "permission denied"⟩).2.2 (by decide)⟩

/-! ## C2: extract_args -/

open List in
theorem extractArgsLoop_eq {K V : Type} [DecidableEq K] (keys : List K) :
    ∀ (l extracted remaining : List (K × V)),
      extractArgsLoop keys l extracted remaining =
        (extracted ++ l.filter (fun p => decide (p.1 ∈ keys)),
         remaining ++ l.filter (fun p => !decide (p.1 ∈ keys)))
  | [], e, r => by simp [extractArgsLoop]
  | (k, v) :: rest, e, r => by
    by_cases hk : k ∈ keys
    · simp [extractArgsLoop, hk, extractArgsLoop_eq keys rest, List.filter_cons]
    · simp [extractArgsLoop, hk, extractArgsLoop_eq keys rest, List.filter_cons]

open List in
/-- C2: `extract_args` partitions `kwargs`: the two results have disjoint key
sets, their pairs together are exactly the pairs of `kwargs`, and a pair of
`kwargs` lands in `extracted` precisely when its key is in `keys_to_extract`. -/
theorem extract_args_partition {K V : Type} [DecidableEq K] (kwargs : List (K × V))
    (keysToExtract : List K) :
    ((extract_args kwargs keysToExtract).1.map Prod.fst).Disjoint
        ((extract_args kwargs keysToExtract).2.map Prod.fst) ∧
    (extract_args kwargs keysToExtract).1 ++ (extract_args kwargs keysToExtract).2
      ~ kwargs ∧
    ∀ k v, (k, v) ∈ kwargs →
      ((k, v) ∈ (extract_args kwargs keysToExtract).1 ↔ k ∈ keysToExtract) := by
  have he : (extract_args kwargs keysToExtract).1 =
      kwargs.filter (fun p => decide (p.1 ∈ keysToExtract)) := by
    simp [extract_args, extractArgsLoop_eq]
  have hr : (extract_args kwargs keysToExtract).2 =
      kwargs.filter (fun p => !decide (p.1 ∈ keysToExtract)) := by
    simp [extract_args, extractArgsLoop_eq]
  refine ⟨?_, ?_, ?_⟩
  · intro k hk1 hk2
    rw [he] at hk1
    rw [hr] at hk2
    obtain ⟨p, hp, hpk⟩ := List.mem_map.mp hk1
    obtain ⟨q, hq, hqk⟩ := List.mem_map.mp hk2
    have hp' := (List.mem_filter.mp hp).2
    have hq' := (List.mem_filter.mp hq).2
    simp only [decide_eq_true_eq, Bool.not_eq_true', decide_eq_false_iff_not] at hp' hq'
    exact hq' (hqk ▸ hpk ▸ hp')
  · rw [he, hr]
    exact List.filter_append_perm _ kwargs
  · intro k v hkv
    rw [he]
    constructor
    · intro hmem
      have := (List.mem_filter.mp hmem).2
      simpa using this
    · intro hkin
      exact List.mem_filter.mpr ⟨hkv, by simpa using hkin⟩

/-- Witness for C2 at the spec example `extract_args({a:1,b:2,c:3}, {a,c})`. -/
theorem extract_args_partition_witness :
    ("a", 1) ∈ (extract_args [("a", 1), ("b", 2), ("c", 3)] ["a", "c"]).1 ↔
      "a" ∈ ["a", "c"] :=
  (extract_args_partition [("a", 1), ("b", 2), ("c", 3)] ["a", "c"]).2.2 "a" 1
    (by simp)

/-! ## C1: YAML round trip -/

/-- C1: dumping a mapping with `dump_obj_as_yaml_to_string` and reading the
result back with `read_yaml_string` yields the same mapping, in the same key
insertion order. -/
theorem yaml_roundtrip (m : List (String × String)) :
    read_yaml_string (dump_obj_as_yaml_to_string m) = some m := by
  induction m with
  | nil => rfl
  | cons p rest ih =>
    obtain ⟨k, v⟩ := p
    simp [dump_obj_as_yaml_to_string, read_yaml_string, ih]

/-! ## C6 and C10: one_hot -/

/-- C6: for `0 ≤ hot_idx < length`, `one_hot` returns a vector of exactly
`length` entries, 1 at `hot_idx` and 0 elsewhere; for `hot_idx ≥ length` it
raises the explicit out-of-range error instead of returning a vector. -/
theorem one_hot_spec (hot_idx : Int) (length : Nat) :
    (0 ≤ hot_idx → hot_idx < (length : Int) →
      ∃ l, one_hot hot_idx length = Except.ok l ∧ l.length = length ∧
        ∀ i, i < length → l.getD i 0 = if (i : Int) = hot_idx then 1 else 0) ∧
    ((length : Int) ≤ hot_idx →
      one_hot hot_idx length = Except.error (OneHotError.outOfRange hot_idx length)) := by
  constructor
  · intro h0 hlt
    have hguard : ¬ (length : Int) ≤ hot_idx := by omega
    have hrep : (List.replicate length (0 : Nat)).length = length := by simp
    refine ⟨(List.replicate length 0).set hot_idx.toNat 1, ?_, ?_, ?_⟩
    · simp only [one_hot, hguard, if_false, npSetItem, hrep, h0, if_true, hlt]
    · simp
    · intro i hi
      by_cases hidx : i = hot_idx.toNat
      · subst hidx
        have hlt' : hot_idx.toNat < (List.replicate length (0 : Nat)).length := by
          simp; omega
        rw [getD_set_self _ _ _ _ hlt']
        have : (hot_idx.toNat : Int) = hot_idx := Int.toNat_of_nonneg h0
        simp [this]
      · have hne : (i : Int) ≠ hot_idx := by omega
        rw [getD_set_ne _ _ _ _ _ (fun hc => hidx hc.symm),
          getD_replicate_of_lt _ _ _ _ hi]
        simp [hne]
  · intro hge
    simp [one_hot, hge]

/-- Witness for C6 at the spec examples `one_hot(2, 5)` and `one_hot(5, 5)`. -/
theorem one_hot_spec_witness :
    (∃ l, one_hot 2 5 = Except.ok l ∧ l.length = 5 ∧
      ∀ i, i < 5 → l.getD i 0 = if (i : Int) = 2 then 1 else 0) ∧
    one_hot 5 5 = Except.error (OneHotError.outOfRange 5 5) :=
  ⟨(one_hot_spec 2 5).1 (by decide) (by decide), (one_hot_spec 5 5).2 (by decide)⟩

/-- C10: a negative `hot_idx` with `-length ≤ hot_idx < 0` slips past the
`hot_idx >= length` guard; `one_hot` does not raise and places the 1 at index
`length + hot_idx`. -/
theorem one_hot_negative_index (hot_idx : Int) (length : Nat)
    (h₁ : -(length : Int) ≤ hot_idx) (h₂ : hot_idx < 0) :
    ∃ l, one_hot hot_idx length = Except.ok l ∧ l.length = length ∧
      ∀ i, i < length → l.getD i 0 =
        if (i : Int) = (length : Int) + hot_idx then 1 else 0 := by
  have hguard : ¬ (length : Int) ≤ hot_idx := by omega
  have h0 : ¬ 0 ≤ hot_idx := by omega
  have hrep : (List.replicate length (0 : Nat)).length = length := by simp
  have hok : 0 ≤ hot_idx + (length : Int) := by omega
  refine ⟨(List.replicate length 0).set (hot_idx + (length : Int)).toNat 1, ?_, ?_, ?_⟩
  · simp only [one_hot, hguard, if_false, npSetItem, hrep, h0, hok, if_true]
  · simp
  · intro i hi
    by_cases hidx : i = (hot_idx + (length : Int)).toNat
    · subst hidx
      have hlt' : (hot_idx + (length : Int)).toNat <
          (List.replicate length (0 : Nat)).length := by simp; omega
      rw [getD_set_self _ _ _ _ hlt']
      have : (((hot_idx + (length : Int)).toNat : Nat) : Int) =
          (length : Int) + hot_idx := by omega
      simp [this]
    · have hne : (i : Int) ≠ (length : Int) + hot_idx := by omega
      rw [getD_set_ne _ _ _ _ _ (fun hc => hidx hc.symm),
        getD_replicate_of_lt _ _ _ _ hi]
      simp [hne]

/-- Witness for C10 at `one_hot(-1, 5)`. -/
theorem one_hot_negative_index_witness :
    ∃ l, one_hot (-1) 5 = Except.ok l ∧ l.length = 5 ∧
      ∀ i, i < 5 → l.getD i 0 =
        if (i : Int) = ((5 : Nat) : Int) + (-1) then 1 else 0 :=
  one_hot_negative_index (-1) 5 (by decide) (by decide)

/-! ## C3, C4, C5: HashableNDArray -/

theorem init_fst_length_le (sha1 : List Int → Nat) (σ : Store Int) (r : NDRef)
    (t : Bool) : σ.length ≤ (HashableNDArray.init sha1 σ r t).1.length := by
  cases t <;> simp [HashableNDArray.init, allocArr]

theorem readArr_init_fst (sha1 : List Int → Nat) (σ : Store Int) (r s : NDRef)
    (t : Bool) (h : s.addr < σ.length) :
    readArr (HashableNDArray.init sha1 σ r t).1 s = readArr σ s := by
  cases t
  · rfl
  · exact readArr_append_left σ _ s h

theorem init_snd_wrapped_read (sha1 : List Int → Nat) (σ : Store Int) (r : NDRef)
    (t : Bool) :
    readArr (HashableNDArray.init sha1 σ r t).1
      (HashableNDArray.init sha1 σ r t).2.wrapped = readArr σ r := by
  cases t
  · rfl
  · exact readArr_alloc_new σ (readArr σ r)

theorem init_snd_wrapped_lt (sha1 : List Int → Nat) (σ : Store Int) (r : NDRef)
    (t : Bool) (h : r.addr < σ.length) :
    (HashableNDArray.init sha1 σ r t).2.wrapped.addr <
      (HashableNDArray.init sha1 σ r t).1.length := by
  cases t <;> simp [HashableNDArray.init, allocArr]
  exact h

theorem init_snd_hashVal (sha1 : List Int → Nat) (σ : Store Int) (r : NDRef)
    (t : Bool) :
    (HashableNDArray.init sha1 σ r t).2.hashVal = sha1 (readArr σ r) := by
  cases t <;> rfl

/-- C3: two wrappers built (in either tight mode) from arrays with equal
contents compare equal under `__eq__` and return the same `__hash__` value. -/
theorem hashable_equal_contents (sha1 : List Int → Nat) (σ : Store Int)
    (r₁ r₂ : NDRef) (t₁ t₂ : Bool) (p₁ p₂ : Store Int × HashableNDArray)
    (h₁ : r₁.addr < σ.length) (h₂ : r₂.addr < σ.length)
    (heq : readArr σ r₁ = readArr σ r₂)
    (hp₁ : p₁ = HashableNDArray.init sha1 σ r₁ t₁)
    (hp₂ : p₂ = HashableNDArray.init sha1 p₁.1 r₂ t₂) :
    HashableNDArray.eqMethod p₂.1 p₁.2 p₂.2 = true ∧
    HashableNDArray.hashMethod p₂.1 p₁.2 = HashableNDArray.hashMethod p₂.1 p₂.2 := by
  subst hp₂
  subst hp₁
  have hw₁ : (HashableNDArray.init sha1 σ r₁ t₁).2.wrapped.addr <
      (HashableNDArray.init sha1 σ r₁ t₁).1.length :=
    init_snd_wrapped_lt sha1 σ r₁ t₁ h₁
  have h₂' : r₂.addr < (HashableNDArray.init sha1 σ r₁ t₁).1.length :=
    Nat.lt_of_lt_of_le h₂ (init_fst_length_le sha1 σ r₁ t₁)
  have hread₁ :
      readArr (HashableNDArray.init sha1 (HashableNDArray.init sha1 σ r₁ t₁).1 r₂ t₂).1
        (HashableNDArray.init sha1 σ r₁ t₁).2.wrapped = readArr σ r₁ := by
    rw [readArr_init_fst sha1 _ r₂ _ t₂ hw₁]
    exact init_snd_wrapped_read sha1 σ r₁ t₁
  have hread₂ :
      readArr (HashableNDArray.init sha1 (HashableNDArray.init sha1 σ r₁ t₁).1 r₂ t₂).1
        (HashableNDArray.init sha1 (HashableNDArray.init sha1 σ r₁ t₁).1 r₂ t₂).2.wrapped
        = readArr σ r₂ := by
    rw [init_snd_wrapped_read sha1 _ r₂ t₂]
    exact readArr_init_fst sha1 σ r₁ r₂ t₁ h₂
  constructor
  · unfold HashableNDArray.eqMethod
    rw [hread₁, hread₂, heq]
    simp
  · unfold HashableNDArray.hashMethod
    rw [init_snd_hashVal, init_snd_hashVal, readArr_init_fst sha1 σ r₁ r₂ t₁ h₂, heq]

/-- Witness for C3: a loose and a tight wrapper over the same array. -/
theorem hashable_equal_contents_witness :
    HashableNDArray.eqMethod [[1, 2], [1, 2]] ⟨false, ⟨0⟩, 2⟩ ⟨true, ⟨1⟩, 2⟩ = true ∧
    HashableNDArray.hashMethod [[1, 2], [1, 2]] ⟨false, ⟨0⟩, 2⟩ =
      HashableNDArray.hashMethod [[1, 2], [1, 2]] ⟨true, ⟨1⟩, 2⟩ :=
  hashable_equal_contents (fun l => l.length) [[1, 2]] ⟨0⟩ ⟨0⟩ false true
    ([[1, 2]], ⟨false, ⟨0⟩, 2⟩) ([[1, 2], [1, 2]], ⟨true, ⟨1⟩, 2⟩)
    (by decide) (by decide) rfl rfl rfl

/-- C4: `__hash__` always returns the construction-time hash of the wrapped
contents; after mutating the array under a loose wrapper, `__eq__` compares
the mutated contents while `__hash__` keeps the stale value — a
hash/equality inconsistency. -/
theorem hashable_loose_mutation (sha1 : List Int → Nat) (σ : Store Int) (r : NDRef)
    (b : List Int) (w u : HashableNDArray) (σ' : Store Int)
    (h : r.addr < σ.length)
    (hw : w = (HashableNDArray.init sha1 σ r false).2)
    (hσ' : σ' = writeArr σ r b)
    (hu : u = (HashableNDArray.init sha1 σ' r false).2)
    (hcoll : sha1 (readArr σ r) ≠ sha1 b) :
    HashableNDArray.hashMethod σ' w = sha1 (readArr σ r) ∧
    readArr σ' w.wrapped = b ∧
    HashableNDArray.eqMethod σ' w u = true ∧
    HashableNDArray.hashMethod σ' w ≠ HashableNDArray.hashMethod σ' u := by
  subst hw
  subst hσ'
  subst hu
  have hb : readArr (writeArr σ r b) r = b := readArr_writeArr_self σ r b h
  refine ⟨rfl, hb, ?_, ?_⟩
  · unfold HashableNDArray.eqMethod
    show (readArr (writeArr σ r b) r == readArr (writeArr σ r b) r) = true
    simp
  · unfold HashableNDArray.hashMethod
    show sha1 (readArr σ r) ≠ sha1 (readArr (writeArr σ r b) r)
    rw [hb]
    exact hcoll

/-- Witness for C4: array `[1]` mutated to `[2]` under a loose wrapper, with
`sha1` instantiated to the sum of absolute values. -/
theorem hashable_loose_mutation_witness :
    HashableNDArray.hashMethod [[2]] ⟨false, ⟨0⟩, 1⟩ = 1 ∧
    readArr ([[2]] : Store Int) (⟨0⟩ : NDRef) = [2] ∧
    HashableNDArray.eqMethod [[2]] ⟨false, ⟨0⟩, 1⟩ ⟨false, ⟨0⟩, 2⟩ = true ∧
    HashableNDArray.hashMethod [[2]] ⟨false, ⟨0⟩, 1⟩ ≠
      HashableNDArray.hashMethod [[2]] ⟨false, ⟨0⟩, 2⟩ :=
  hashable_loose_mutation (fun l => (l.map Int.natAbs).sum) [[1]] ⟨0⟩ [2]
    ⟨false, ⟨0⟩, 1⟩ ⟨false, ⟨0⟩, 2⟩ [[2]] (by decide) rfl rfl rfl (by decide)

/-- C5: for a tight wrapper, mutating the original array after construction
does not change the wrapper's reported contents; `__eq__` still compares the
construction-time contents, and `unwrap` returns an array equal to them whose
mutation does not affect the wrapper either. -/
theorem hashable_tight_mutation (sha1 : List Int → Nat) (σ : Store Int) (r : NDRef)
    (b c : List Int) (p : Store Int × HashableNDArray) (σ₂ : Store Int)
    (q : Store Int × NDRef) (σ₄ : Store Int)
    (h : r.addr < σ.length)
    (hp : p = HashableNDArray.init sha1 σ r true)
    (hσ₂ : σ₂ = writeArr p.1 r b)
    (hq : q = HashableNDArray.unwrap σ₂ p.2)
    (hσ₄ : σ₄ = writeArr q.1 q.2 c) :
    readArr σ₂ p.2.wrapped = readArr σ r ∧
    (∀ u : HashableNDArray,
      HashableNDArray.eqMethod σ₂ p.2 u = (readArr σ r == readArr σ₂ u.wrapped)) ∧
    readArr q.1 q.2 = readArr σ r ∧
    readArr σ₄ p.2.wrapped = readArr σ r := by
  subst hp
  subst hσ₂
  subst hq
  subst hσ₄
  have hne : r.addr ≠ (σ.length : Nat) := Nat.ne_of_lt h
  have h1 : readArr (writeArr (σ ++ [readArr σ r]) r b)
      (⟨σ.length⟩ : NDRef) = readArr σ r := by
    rw [readArr_writeArr_ne _ r ⟨σ.length⟩ b hne]
    exact readArr_alloc_new σ (readArr σ r)
  have hwrapped :
      readArr (writeArr (HashableNDArray.init sha1 σ r true).1 r b)
        (HashableNDArray.init sha1 σ r true).2.wrapped = readArr σ r := h1
  have hlen : (writeArr (σ ++ [readArr σ r]) r b).length = σ.length + 1 := by
    rw [length_writeArr]
    simp
  refine ⟨hwrapped, ?_, ?_, ?_⟩
  · intro u
    unfold HashableNDArray.eqMethod
    rw [hwrapped]
  · unfold HashableNDArray.unwrap
    simp only [HashableNDArray.init, allocArr, if_true]
    rw [readArr_append_self, h1]
  · unfold HashableNDArray.unwrap
    simp only [HashableNDArray.init, allocArr, if_true]
    rw [readArr_writeArr_ne _ _ _ c (by simp [hlen])]
    rw [readArr_append_left _ _ _ (by simp [hlen])]
    exact h1

/-- Witness for C5: tight wrapper over `[5]`, original mutated to `[7]`,
unwrapped copy mutated to `[9]`. -/
theorem hashable_tight_mutation_witness :
    readArr ([[7], [5]] : Store Int) (⟨1⟩ : NDRef) = [5] ∧
    HashableNDArray.eqMethod [[7], [5]] ⟨true, ⟨1⟩, 1⟩ ⟨false, ⟨0⟩, 0⟩ =
      ([5] == readArr ([[7], [5]] : Store Int) (⟨0⟩ : NDRef)) ∧
    readArr ([[7], [5], [5]] : Store Int) (⟨2⟩ : NDRef) = [5] ∧
    readArr ([[7], [5], [9]] : Store Int) (⟨1⟩ : NDRef) = [5] := by
  have H := hashable_tight_mutation (fun l => l.length) [[5]] ⟨0⟩ [7] [9]
    ([[5], [5]], ⟨true, ⟨1⟩, 1⟩) [[7], [5]] ([[7], [5], [5]], ⟨2⟩) [[7], [5], [9]]
    (by decide) rfl rfl rfl rfl
  exact ⟨H.1, H.2.1 ⟨false, ⟨0⟩, 0⟩, H.2.2.1, H.2.2.2⟩

/-! ## C7, C8: subsample_array -/

open List in
theorem cons_getElem_set_perm {α : Type} (t : List α) (k : Nat) (hk : k < t.length)
    (a : α) : t.get ⟨k, hk⟩ :: t.set k a ~ a :: t := by
  induction t generalizing k with
  | nil => exact absurd hk (by simp)
  | cons x s ih =>
    cases k with
    | zero =>
      show x :: a :: s ~ a :: x :: s
      exact List.Perm.swap a x s
    | succ k =>
      have hk' : k < s.length := by simpa using hk
      show s.get ⟨k, hk'⟩ :: x :: s.set k a ~ a :: x :: s
      calc s.get ⟨k, hk'⟩ :: x :: s.set k a
          ~ x :: s.get ⟨k, hk'⟩ :: s.set k a := List.Perm.swap _ _ _
        _ ~ x :: a :: s := List.Perm.cons x (ih k hk')
        _ ~ a :: x :: s := List.Perm.swap _ _ _

open List in
theorem set_set_swap_perm {α : Type} :
    ∀ (l : List α) (i j : Nat) (hi : i < l.length) (hj : j < l.length),
      (l.set i (l.get ⟨j, hj⟩)).set j (l.get ⟨i, hi⟩) ~ l
  | [], i, _, hi, _ => absurd hi (by simp)
  | x :: s, 0, 0, _, _ => by simp
  | x :: s, 0, k + 1, hi, hj => by
    have hk : k < s.length := by simpa using hj
    show s.get ⟨k, hk⟩ :: s.set k x ~ x :: s
    exact cons_getElem_set_perm s k hk x
  | x :: s, m + 1, 0, hi, hj => by
    have hm : m < s.length := by simpa using hi
    show s.get ⟨m, hm⟩ :: s.set m x ~ x :: s
    exact cons_getElem_set_perm s m hm x
  | x :: s, m + 1, k + 1, hi, hj => by
    have hm : m < s.length := by simpa using hi
    have hk : k < s.length := by simpa using hj
    show x :: (s.set m (s.get ⟨k, hk⟩)).set k (s.get ⟨m, hm⟩) ~ x :: s
    exact List.Perm.cons x (set_set_swap_perm s m k hm hk)

open List in
theorem listSwap_perm {α : Type} (l : List α) (i j : Nat) : listSwap l i j ~ l := by
  unfold listSwap
  split
  · next h => exact set_set_swap_perm l i j h.1 h.2
  · exact List.Perm.refl l

open List in
theorem shuffleFrom_perm {α : Type} (g : Nat → Nat) :
    ∀ (l : List α) (k : Nat), shuffleFrom g l k ~ l
  | _, 0 => List.Perm.refl _
  | l, k + 1 =>
    (shuffleFrom_perm g (listSwap l (k + 1) (g (k + 1) % (k + 2))) k).trans
      (listSwap_perm l (k + 1) _)

open List in
theorem pyShuffle_perm {α : Type} (g : Nat → Nat) (l : List α) : pyShuffle g l ~ l :=
  shuffleFrom_perm g l (l.length - 1)

theorem subsample_array_snd {α : Type} (σ : Store α) (r : NDRef) (m : Int)
    (canModify : Bool) (g : Nat → Nat) (hr : r.addr < σ.length) :
    (subsample_array σ r m canModify g).2 =
      pySliceTo (pyShuffle g (readArr σ r)) m := by
  cases canModify
  · show pySliceTo
      (readArr
        (writeArr (allocArr σ (readArr σ r)).1 (allocArr σ (readArr σ r)).2
          (pyShuffle g (readArr (allocArr σ (readArr σ r)).1
            (allocArr σ (readArr σ r)).2)))
        (allocArr σ (readArr σ r)).2) m = _
    rw [readArr_writeArr_self _ _ _ (by simp [allocArr]), readArr_alloc_new]
  · show pySliceTo (readArr (writeArr σ r (pyShuffle g (readArr σ r))) r) m = _
    rw [readArr_writeArr_self _ _ _ hr]

open List in
/-- C7 (amended to a nonnegative `max_values`, the type comment's `int` also
admitting negative slice bounds): for `0 ≤ max_values`, `subsample_array`
returns exactly `min max_values (len arr)` elements, each a member of the
original sequence, and no element occurs more often than in the original. -/
theorem subsample_array_spec {α : Type} [DecidableEq α] (σ : Store α) (r : NDRef)
    (maxValues : Int) (canModify : Bool) (g : Nat → Nat)
    (hr : r.addr < σ.length) (hm : 0 ≤ maxValues) :
    (((subsample_array σ r maxValues canModify g).2.length : Int) =
      min maxValues ((readArr σ r).length : Int)) ∧
    (∀ x, x ∈ (subsample_array σ r maxValues canModify g).2 → x ∈ readArr σ r) ∧
    (∀ x, (subsample_array σ r maxValues canModify g).2.count x ≤
      (readArr σ r).count x) := by
  rw [subsample_array_snd σ r maxValues canModify g hr]
  have hperm : pyShuffle g (readArr σ r) ~ readArr σ r := pyShuffle_perm g _
  have hslice : pySliceTo (pyShuffle g (readArr σ r)) maxValues =
      (pyShuffle g (readArr σ r)).take maxValues.toNat := by
    simp [pySliceTo, hm]
  rw [hslice]
  refine ⟨?_, ?_, ?_⟩
  · rw [List.length_take, hperm.length_eq]
    omega
  · intro x hx
    exact hperm.mem_iff.mp ((List.take_sublist _ _).subset hx)
  · intro x
    calc ((pyShuffle g (readArr σ r)).take maxValues.toNat).count x
        ≤ (pyShuffle g (readArr σ r)).count x :=
          List.Sublist.count_le (List.take_sublist _ _) x
      _ = (readArr σ r).count x := hperm.count_eq x

/-- Witness for C7 at the spec example: a length-10 sequence subsampled with
`max_values = 3`. -/
theorem subsample_array_spec_witness :
    ((((subsample_array ([[1, 2, 3, 4, 5, 6, 7, 8, 9, 10]] : Store Nat) ⟨0⟩ 3 true
        (fun _ => 0)).2.length : Int) =
      min 3 ((readArr ([[1, 2, 3, 4, 5, 6, 7, 8, 9, 10]] : Store Nat)
        ⟨0⟩).length : Int))) ∧
    (∀ x, x ∈ (subsample_array ([[1, 2, 3, 4, 5, 6, 7, 8, 9, 10]] : Store Nat) ⟨0⟩ 3
        true (fun _ => 0)).2 →
      x ∈ readArr ([[1, 2, 3, 4, 5, 6, 7, 8, 9, 10]] : Store Nat) ⟨0⟩) ∧
    (∀ x, (subsample_array ([[1, 2, 3, 4, 5, 6, 7, 8, 9, 10]] : Store Nat) ⟨0⟩ 3 true
        (fun _ => 0)).2.count x ≤
      (readArr ([[1, 2, 3, 4, 5, 6, 7, 8, 9, 10]] : Store Nat) ⟨0⟩).count x) :=
  subsample_array_spec [[1, 2, 3, 4, 5, 6, 7, 8, 9, 10]] ⟨0⟩ 3 true (fun _ => 0)
    (by decide) (by decide)

/-- Counterexample to C7 as stated for every `max_values`: with the Python
`int` bound `max_values = -1` on a length-3 array, the result has 2 elements,
not `min(-1, 3) = -1`. -/
theorem subsample_array_negative_counterexample :
    ¬ (((subsample_array ([[1, 2, 3]] : Store Nat) ⟨0⟩ (-1) true
        (fun _ => 0)).2.length : Int) =
      min (-1 : Int) ((readArr ([[1, 2, 3]] : Store Nat) ⟨0⟩).length : Int)) := by
  decide

/-- C8: with `can_modify_incoming_array=False` the caller's sequence is left
unmodified by `subsample_array`. -/
theorem subsample_array_no_modify {α : Type} (σ : Store α) (r : NDRef)
    (maxValues : Int) (g : Nat → Nat) (hr : r.addr < σ.length) :
    readArr (subsample_array σ r maxValues false g).1 r = readArr σ r := by
  show readArr
      (writeArr (allocArr σ (readArr σ r)).1 (allocArr σ (readArr σ r)).2
        (pyShuffle g (readArr (allocArr σ (readArr σ r)).1
          (allocArr σ (readArr σ r)).2))) r = readArr σ r
  rw [readArr_writeArr_ne _ _ _ _ (by simp [allocArr]; omega)]
  exact readArr_append_left σ _ r hr

/-- Witness for C8: the caller's array `[1, 2, 3]` is intact after a
non-modifying subsample. -/
theorem subsample_array_no_modify_witness :
    readArr (subsample_array ([[1, 2, 3]] : Store Nat) ⟨0⟩ 2 false
      (fun _ => 0)).1 ⟨0⟩ = readArr ([[1, 2, 3]] : Store Nat) ⟨0⟩ :=
  subsample_array_no_modify [[1, 2, 3]] ⟨0⟩ 2 (fun _ => 0) (by decide)
